import Mathlib

/-!
Verification of the audio merge pipeline of the myteamberlin application.

The subsystem under study lives in `src/server/audio.ts` (the merge
executor `mergeAudioFiles`, the filter-graph construction, `deleteFile`)
and `src/server/routes.ts` (the `POST /api/mixmerge/merge` handler and its
background execution task).  The persistence layer
(`storage.createMergeJob`, `storage.updateMergeJob`, `storage.getAudioFile`)
is not part of the sources; those operations are modelled from the
specification and are marked as such in their doc comments.

Strings are embedded as `List Char` (a JavaScript string is a sequence of
characters); `Array.prototype.join` with a separator becomes `joinSep`,
and `join('')` becomes flattening of the mapped list.
-/

namespace MixMerge

/-- Counts the occurrences (possibly overlapping) of the pattern `pat`
starting at each position of `s`. -/
def countSub (pat : List Char) : List Char → Nat
  | [] => 0
  | c :: t => (if pat.isPrefixOf (c :: t) then 1 else 0) + countSub pat t

/-- Checks that matching `pat` against the front of `s` fails at a position
where `s` still has a character, so the failure does not depend on whatever
follows `s`. -/
def mismatchWithin : List Char → List Char → Bool
  | _, [] => false
  | [], _ => false
  | p :: pr, c :: cs => if p = c then mismatchWithin pr cs else true

/-- Checks that no occurrence of `pat` can start at any position of the
chunk `s`, whatever text follows `s`. -/
def noOccStarts (pat : List Char) : List Char → Bool
  | [] => true
  | c :: cs => mismatchWithin pat (c :: cs) && noOccStarts pat cs

/-! Embedding of the filter-graph expression built by `mergeAudioFiles`
(`src/server/audio.ts`, lines 87-104).  The expression depends only on the
number of inputs; each map over `inputFiles` uses only the index. -/

/-- Per-input stream label of the plain-concatenation branch. -/
def inputLabel (i : Nat) : List Char :=
  "[".data ++ (Nat.repr i).data ++ ":0]".data

/-- Per-input silence-removal filter of the `removeSilence` branch. -/
def silenceFilter (i : Nat) : List Char :=
  "[".data ++ (Nat.repr i).data ++
    ":0]silenceremove=stop_periods=-1:stop_duration=5:stop_threshold=-50dB[clean".data ++
    (Nat.repr i).data ++ "]".data

/-- Intermediate silence-stripped stream label. -/
def cleanLabel (i : Nat) : List Char :=
  "[clean".data ++ (Nat.repr i).data ++ "]".data

/-- Final concat directive with its output label. -/
def concatDirective (n : Nat) : List Char :=
  "concat=n=".data ++ (Nat.repr n).data ++ ":v=0:a=1[out]".data

/-- Embedding of `Array.prototype.join` with a separator. -/
def joinSep (sep : List Char) : List (List Char) → List Char
  | [] => []
  | [x] => x
  | x :: xs => x ++ sep ++ joinSep sep xs

/-- Embedding of the `filterComplex` expression of `mergeAudioFiles`:
with `removeSilence` the per-input silence filters joined by `;`, one more
`;`, the clean labels, and the concat directive; without it the input
labels followed by the concat directive. -/
def filterComplex (inputFiles : List String) (removeSilence : Bool) : List Char :=
  if removeSilence then
    joinSep (";".data) ((List.range inputFiles.length).map silenceFilter) ++ ";".data ++
      ((List.range inputFiles.length).map cleanLabel).flatten ++
      concatDirective inputFiles.length
  else
    ((List.range inputFiles.length).map inputLabel).flatten ++
      concatDirective inputFiles.length

/-! Embedding of `mergeAudioFiles` (`src/server/audio.ts`, lines 59-134) up to
the point where the external engine is spawned, of `deleteFile`
(lines 142-150), and of the merge route with its background task
(`src/server/routes.ts`, lines 931-987). -/

/-- Invocation of the external engine: the explicit ordered input list, the
filter-graph expression, the output mapping, the fixed codec and bitrate,
and the output path. -/
structure EngineInvocation where
  inputs : List String
  filter : List Char
  outputOptions : List String
  audioCodec : String
  audioBitrate : Nat
  output : String

/-- Embedding of the validation and setup phase of `mergeAudioFiles`: every
input path is checked for existence in order, the first missing one rejects
with a descriptive error naming it and the engine is never spawned;
otherwise the engine is invoked with the filter graph and fixed options. -/
def mergeAudioFiles (fsExists : String → Bool) (inputFiles : List String)
    (outputPath : String) (removeSilence : Bool) : Except String EngineInvocation :=
  match inputFiles.find? (fun f => ! fsExists f) with
  | some f => Except.error ("Input file does not exist: " ++ f)
  | none =>
      Except.ok
        { inputs := inputFiles
          filter := filterComplex inputFiles removeSilence
          outputOptions := ["-map", "[out]"]
          audioCodec := "libmp3lame"
          audioBitrate := 192
          output := outputPath }

/-- Embedding of the progress forwarding of `mergeAudioFiles` (line 116):
`onProgress(progress.percent || 0)` — an absent or zero percent becomes 0,
any other value is passed through unchanged. -/
def forwardedProgress (percent : Option ℚ) : ℚ :=
  match percent with
  | none => 0
  | some p => if p = 0 then 0 else p

/-- Embedding of `deleteFile`: the filesystem is the predicate of existing
paths; the file is unlinked only when it exists, errors are swallowed, and
the function returns nothing (the `Unit` component is its return value). -/
def deleteFile (fsExists : String → Bool) (filePath : String) :
    (String → Bool) × Unit :=
  if fsExists filePath then
    (fun q => if q = filePath then false else fsExists q, ())
  else
    (fsExists, ())

/-- Stored audio asset as consumed by the merge route (`file.filename`). -/
structure AudioFile where
  filename : String

/-- Modelled from the spec: the persisted MergeJob record (spec §3) with the
fields the merge route reads and writes. -/
structure MergeJob where
  status : String
  progress : Int
  outputFile : Option String
  removeSilence : Bool
  createdBy : String
  completedAt : Option Nat

/-- Partial update passed to `storage.updateMergeJob`: a `none` field is
absent from the update object and leaves the stored field unchanged. -/
structure MergeJobUpdate where
  status : Option String := none
  progress : Option Int := none
  outputFile : Option String := none
  completedAt : Option Nat := none

/-- Modelled from the spec: `storage.createMergeJob` (not under `src/`;
spec §4.4 "creates the Job in Pending") — a fresh record with the supplied
fields, zero progress, no output reference, no completion time. -/
def createMergeJob (status : String) (removeSilence : Bool)
    (createdBy : String) : MergeJob :=
  { status := status, progress := 0, outputFile := none,
    removeSilence := removeSilence, createdBy := createdBy, completedAt := none }

/-- Modelled from the spec: `storage.updateMergeJob` (not under `src/`;
spec §4.4 "persists ... onto the Job record") — applies exactly the
supplied fields of the partial update to the stored record. -/
def updateMergeJob (j : MergeJob) (u : MergeJobUpdate) : MergeJob :=
  { status := u.status.getD j.status
    progress := u.progress.getD j.progress
    outputFile := match u.outputFile with | some f => some f | none => j.outputFile
    removeSilence := j.removeSilence
    createdBy := j.createdBy
    completedAt := match u.completedAt with | some t => some t | none => j.completedAt }

/-- Outcome of the spawned engine run. -/
inductive EngineResult
  | success : EngineResult
  | failure : String → EngineResult

/-- Environment of one background execution: the asset store, the
filesystem, the engine outcome, the progress percents the engine delivers,
and the completion clock. -/
structure MergeEnv where
  getAudioFile : Nat → Option AudioFile
  fsExists : String → Bool
  engine : EngineResult
  progressEvents : List (Option ℚ)
  now : Nat

/-- Path resolution of the background task (`routes.ts` line 958):
the template `uploads/` followed by `file?.filename` — a missing lookup
interpolates as the literal text `undefined`. -/
def resolvedPath (f : Option AudioFile) : String :=
  "uploads/" ++ (match f with | some a => a.filename | none => "undefined")

/-- Embedding of the background task of `POST /api/mixmerge/merge`
(`routes.ts` lines 951-980) as the ordered list of job updates it issues:
the Processing write, then — once the engine is reached — one progress
write per delivered percent (each `Math.floor`ed), and finally the
Completed write, or the Failed write when an input is missing or the
engine fails. -/
def backgroundTask (env : MergeEnv) (fileIds : List Nat) (removeSilence : Bool)
    (outputFilename : String) : List MergeJobUpdate :=
  let files := fileIds.map env.getAudioFile
  let filePaths := files.map resolvedPath
  let progressUpds := env.progressEvents.map
    (fun e => ({ progress := some ⌊forwardedProgress e⌋ } : MergeJobUpdate))
  match mergeAudioFiles env.fsExists filePaths ("uploads/" ++ outputFilename)
      removeSilence with
  | Except.error _ =>
      [{ status := some ("processing") }, { status := some ("failed") }]
  | Except.ok _ =>
      match env.engine with
      | EngineResult.success =>
          { status := some ("processing") } :: (progressUpds ++
            [{ status := some ("completed"), progress := some 100,
               outputFile := some outputFilename, completedAt := some env.now }])
      | EngineResult.failure _ =>
          { status := some ("processing") } :: (progressUpds ++
            [{ status := some ("failed") }])

/-- Trace of job states: the created record followed by the record after
each persisted update, in order. -/
def jobTrace (j : MergeJob) : List MergeJobUpdate → List MergeJob
  | [] => [j]
  | u :: us => j :: jobTrace (updateMergeJob j u) us

/-- Final job state after all updates have been applied. -/
def finalJob (j : MergeJob) (us : List MergeJobUpdate) : MergeJob :=
  us.foldl updateMergeJob j

/-- Embedding of the `POST /api/mixmerge/merge` handler (`routes.ts` lines
931-987): `fileIds` absent, not an array, or empty is rejected with 400;
otherwise the Pending job is created, the background task is scheduled, and
the created job is the response.  The response is the first component; the
background task's updates are the second. -/
def mixmergeRoute (env : MergeEnv) (userId : String) (fileIds : Option (List Nat))
    (removeSilence : Option Bool) (outputFilename : String) :
    Except Nat MergeJob × List MergeJobUpdate :=
  match fileIds with
  | none => (Except.error 400, [])
  | some ids =>
      if ids.isEmpty then (Except.error 400, [])
      else
        (Except.ok (createMergeJob ("pending") (removeSilence.getD false) userId),
         backgroundTask env ids (removeSilence.getD false) outputFilename)

/-- Progress values persisted by the progress callback alone: the updates
carrying a progress value and no status change (`routes.ts` lines 966-968). -/
def callbackWrites (us : List MergeJobUpdate) : List Int :=
  us.filterMap (fun u => match u.status with | none => u.progress | some _ => none)

/-- Environment in which no asset id resolves and no file exists. -/
def envMissingAsset : MergeEnv :=
  { getAudioFile := fun _ => none, fsExists := fun _ => false,
    engine := EngineResult.success, progressEvents := [], now := 0 }

/-- Environment of a successful run whose engine delivers 50 then 30. -/
def envProgressDecrease : MergeEnv :=
  { getAudioFile := fun _ => some { filename := "a.mp3" },
    fsExists := fun _ => true, engine := EngineResult.success,
    progressEvents := [some 50, some 30], now := 7 }

/-- Environment of a successful run delivering one progress event. -/
def envSuccess : MergeEnv :=
  { getAudioFile := fun _ => some { filename := "a.mp3" },
    fsExists := fun _ => true, engine := EngineResult.success,
    progressEvents := [some 30], now := 99 }

/-- Environment of a run whose engine fails after one progress event. -/
def envEngineFailure : MergeEnv :=
  { getAudioFile := fun _ => some { filename := "a.mp3" },
    fsExists := fun _ => true, engine := EngineResult.failure ("boom"),
    progressEvents := [some 40], now := 5 }

theorem mismatchWithin_isPrefixOf_eq_false (pat s : List Char)
    (h : mismatchWithin pat s = true) (rest : List Char) :
    pat.isPrefixOf (s ++ rest) = false := by
  induction pat generalizing s rest with
  | nil => cases s <;> simp [mismatchWithin] at h
  | cons p pr ih =>
    cases s with
    | nil => simp [mismatchWithin] at h
    | cons c cs =>
      simp only [mismatchWithin] at h
      by_cases hpc : p = c
      · subst hpc
        simp only [if_pos rfl] at h
        simp [List.cons_append, List.isPrefixOf, ih cs h rest]
      · simp [List.cons_append, List.isPrefixOf, hpc]

theorem noOccStarts_countSub (pat s : List Char) (h : noOccStarts pat s = true)
    (rest : List Char) : countSub pat (s ++ rest) = countSub pat rest := by
  induction s with
  | nil => rfl
  | cons c cs ih =>
    simp only [noOccStarts, Bool.and_eq_true] at h
    have hp := mismatchWithin_isPrefixOf_eq_false pat (c :: cs) h.1 rest
    simp only [List.cons_append] at hp
    simp [countSub, hp, ih h.2]

theorem countSub_cons_ne (p : Char) (pr : List Char) (c : Char) (t : List Char)
    (h : p ≠ c) : countSub (p :: pr) (c :: t) = countSub (p :: pr) t := by
  simp [countSub, List.isPrefixOf, beq_eq_false_iff_ne.mpr h]

theorem countSub_cons₂_ne (p q : Char) (pr : List Char) (c : Char)
    (t : List Char) (h : q ≠ c) :
    countSub (p :: q :: pr) (p :: c :: t) = countSub (p :: q :: pr) (c :: t) := by
  simp [countSub, List.isPrefixOf, beq_eq_false_iff_ne.mpr h]

theorem countSub_skip (p : Char) (pr a rest : List Char)
    (h : ∀ c ∈ a, p ≠ c) :
    countSub (p :: pr) (a ++ rest) = countSub (p :: pr) rest := by
  induction a with
  | nil => rfl
  | cons c t ih =>
    rw [List.cons_append, countSub_cons_ne p pr c (t ++ rest) (h c (by simp))]
    exact ih fun x hx => h x (by simp [hx])

theorem isPrefixOf_append_self (p u : List Char) : p.isPrefixOf (p ++ u) = true := by
  induction p with
  | nil => simp [List.isPrefixOf]
  | cons c t ih => simp [List.isPrefixOf, ih]

theorem countSub_self_head (p : Char) (pr X : List Char) :
    countSub (p :: pr) ((p :: pr) ++ X) = 1 + countSub (p :: pr) (pr ++ X) := by
  have h := isPrefixOf_append_self (p :: pr) X
  simp only [List.cons_append] at h ⊢
  simp [countSub, h]

theorem isPrefixOf_of_append_isPrefixOf (p q s : List Char)
    (h : (p ++ q).isPrefixOf s = true) : p.isPrefixOf s = true := by
  induction p generalizing s with
  | nil => simp [List.isPrefixOf]
  | cons c t ih =>
    cases s with
    | nil => simp [List.isPrefixOf] at h
    | cons d u =>
      simp only [List.cons_append, List.isPrefixOf, Bool.and_eq_true] at h ⊢
      exact ⟨h.1, ih u h.2⟩

theorem countSub_le_of_append (p q s : List Char) :
    countSub (p ++ q) s ≤ countSub p s := by
  induction s with
  | nil => exact Nat.le_refl 0
  | cons c t ih =>
    simp only [countSub]
    by_cases h : (p ++ q).isPrefixOf (c :: t) = true
    · rw [if_pos h, if_pos (isPrefixOf_of_append_isPrefixOf p q _ h)]
      omega
    · rw [if_neg h]
      have : (if p.isPrefixOf (c :: t) = true then 1 else 0) + countSub p t ≥
          0 + countSub p t := by omega
      omega

theorem one_le_countSub_append_self (p : Char) (pr a : List Char) :
    1 ≤ countSub (p :: pr) (a ++ (p :: pr)) := by
  induction a with
  | nil =>
    have h : (p :: pr).isPrefixOf (p :: pr) = true := by
      have h2 := isPrefixOf_append_self (p :: pr) []
      simp only [List.append_nil] at h2
      exact h2
    simp only [List.nil_append]
    cases pr with
    | nil => simp [countSub, h]
    | cons q qr => simp [countSub, h]
  | cons c t ih =>
    simp only [List.cons_append, countSub, List.append_eq] at ih ⊢
    omega

/-! Digits of `Nat.repr`. -/

theorem digitChar_isDigit (m : Nat) (h : m < 10) : (Nat.digitChar m).isDigit = true := by
  interval_cases m <;> decide

theorem toDigitsCore_mem (fuel n : Nat) (acc : List Char) (c : Char)
    (hc : c ∈ Nat.toDigitsCore 10 fuel n acc) : c ∈ acc ∨ c.isDigit = true := by
  induction fuel generalizing n acc with
  | zero => exact Or.inl hc
  | succ fuel ih =>
    simp only [Nat.toDigitsCore] at hc
    by_cases h0 : n / 10 = 0
    · rw [if_pos h0] at hc
      rcases List.mem_cons.mp hc with h | h
      · exact Or.inr (h ▸ digitChar_isDigit _ (Nat.mod_lt _ (by omega)))
      · exact Or.inl h
    · rw [if_neg h0] at hc
      rcases ih _ _ hc with h | h
      · rcases List.mem_cons.mp h with h | h
        · exact Or.inr (h ▸ digitChar_isDigit _ (Nat.mod_lt _ (by omega)))
        · exact Or.inl h
      · exact Or.inr h

theorem repr_digits (n : Nat) : ∀ c ∈ (Nat.repr n).data, c.isDigit = true := by
  intro c hc
  have : c ∈ Nat.toDigitsCore 10 (n + 1) n [] := hc
  rcases toDigitsCore_mem _ _ _ _ this with h | h
  · exact absurd h (List.not_mem_nil c)
  · exact h

theorem toDigitsCore_ne_nil (fuel n : Nat) (acc : List Char) (h : acc ≠ []) :
    Nat.toDigitsCore 10 fuel n acc ≠ [] := by
  induction fuel generalizing n acc with
  | zero => exact h
  | succ fuel ih =>
    simp only [Nat.toDigitsCore]
    by_cases h0 : n / 10 = 0
    · rw [if_pos h0]
      exact List.cons_ne_nil _ _
    · rw [if_neg h0]
      exact ih _ _ (List.cons_ne_nil _ _)

theorem repr_ne_nil (n : Nat) : (Nat.repr n).data ≠ [] := by
  show Nat.toDigitsCore 10 (n + 1) n [] ≠ []
  simp only [Nat.toDigitsCore]
  by_cases h0 : n / 10 = 0
  · rw [if_pos h0]
    exact List.cons_ne_nil _ _
  · rw [if_neg h0]
    exact toDigitsCore_ne_nil _ _ _ (List.cons_ne_nil _ _)

theorem char_ne_of_digit (p c : Char) (h1 : c.isDigit = true)
    (h2 : p.isDigit = false) : p ≠ c := by
  intro e
  rw [e, h1] at h2
  exact Bool.noConfusion h2

theorem countSub_digits (p : Char) (pr rest : List Char) (n : Nat)
    (hp : p.isDigit = false) :
    countSub (p :: pr) ((Nat.repr n).data ++ rest) = countSub (p :: pr) rest :=
  countSub_skip p pr _ rest fun c hc => char_ne_of_digit p c (repr_digits n c hc) hp

theorem countSub_cons_pos (pat : List Char) (c : Char) (t : List Char)
    (h : pat.isPrefixOf (c :: t) = true) :
    countSub pat (c :: t) = 1 + countSub pat t := by
  simp [countSub, h]

/-! Counting occurrences of the interesting patterns in each kind of
segment.  The patterns: `":0]"` (an input-stream reference), `"concat="`
(a concat directive), `"[out]"` (the output label), `"silenceremove"`
(a silence filter), `"[clean"` (an intermediate label). -/

theorem inputLabel_count_ref (i : Nat) (rest : List Char) :
    countSub [':', '0', ']'] (inputLabel i ++ rest) =
      1 + countSub [':', '0', ']'] rest := by
  have e : inputLabel i ++ rest =
      '[' :: ((Nat.repr i).data ++ ([':', '0', ']'] ++ rest)) := by
    simp [inputLabel, List.append_assoc]
  rw [e]
  rw [countSub_cons_ne _ _ _ _ (by decide)]
  rw [countSub_digits _ _ _ _ (by decide)]
  rw [countSub_self_head]
  rw [noOccStarts_countSub _ _ (by decide)]

theorem inputLabel_count_zero (p : Char) (pr : List Char) (i : Nat)
    (rest : List Char) (hp : p.isDigit = false) (hlb : p ≠ '[')
    (hno : noOccStarts (p :: pr) [':', '0', ']'] = true) :
    countSub (p :: pr) (inputLabel i ++ rest) = countSub (p :: pr) rest := by
  have e : inputLabel i ++ rest =
      '[' :: ((Nat.repr i).data ++ ([':', '0', ']'] ++ rest)) := by
    simp [inputLabel, List.append_assoc]
  rw [e]
  rw [countSub_cons_ne _ _ _ _ hlb]
  rw [countSub_digits _ _ _ _ hp]
  rw [noOccStarts_countSub _ _ hno]

theorem countSub_bracket_digits (q : Char) (pr rest : List Char) (i : Nat)
    (hq : q.isDigit = false) :
    countSub ('[' :: q :: pr) ('[' :: ((Nat.repr i).data ++ rest)) =
      countSub ('[' :: q :: pr) rest := by
  obtain ⟨d, ds, hd⟩ : ∃ d ds, (Nat.repr i).data = d :: ds := by
    cases h : (Nat.repr i).data with
    | nil => exact absurd h (repr_ne_nil i)
    | cons d ds => exact ⟨d, ds, rfl⟩
  have hdig : d.isDigit = true := repr_digits i d (by rw [hd]; exact List.mem_cons_self d ds)
  rw [hd, List.cons_append]
  rw [countSub_cons₂_ne _ _ _ _ _ (char_ne_of_digit q d hdig hq)]
  rw [← List.cons_append, ← hd]
  exact countSub_digits '[' (q :: pr) rest i (by decide)

theorem silenceFilter_count_ref (i : Nat) (rest : List Char) :
    countSub [':', '0', ']'] (silenceFilter i ++ rest) =
      1 + countSub [':', '0', ']'] rest := by
  have e : silenceFilter i ++ rest =
      '[' :: ((Nat.repr i).data ++ ([':', '0', ']'] ++
        ("silenceremove=stop_periods=-1:stop_duration=5:stop_threshold=-50dB[clean".data ++
          ((Nat.repr i).data ++ (']' :: rest))))) := by
    simp [silenceFilter, List.append_assoc]
  rw [e]
  rw [countSub_cons_ne _ _ _ _ (by decide)]
  rw [countSub_digits _ _ _ _ (by decide)]
  rw [countSub_self_head]
  rw [noOccStarts_countSub _ _ (by decide)]
  rw [noOccStarts_countSub _ _ (by decide)]
  rw [countSub_digits _ _ _ _ (by decide)]
  rw [countSub_cons_ne _ _ _ _ (by decide)]

theorem silenceFilter_count_concat (i : Nat) (rest : List Char) :
    countSub ['c', 'o', 'n', 'c', 'a', 't', '='] (silenceFilter i ++ rest) =
      countSub ['c', 'o', 'n', 'c', 'a', 't', '='] rest := by
  have e : silenceFilter i ++ rest =
      '[' :: ((Nat.repr i).data ++
        (":0]silenceremove=stop_periods=-1:stop_duration=5:stop_threshold=-50dB[clean".data ++
          ((Nat.repr i).data ++ (']' :: rest)))) := by
    simp [silenceFilter, List.append_assoc]
  rw [e]
  rw [countSub_cons_ne _ _ _ _ (by decide)]
  rw [countSub_digits _ _ _ _ (by decide)]
  rw [noOccStarts_countSub _ _ (by decide)]
  rw [countSub_digits _ _ _ _ (by decide)]
  rw [countSub_cons_ne _ _ _ _ (by decide)]

theorem silenceFilter_count_out (i : Nat) (rest : List Char) :
    countSub ['[', 'o', 'u', 't', ']'] (silenceFilter i ++ rest) =
      countSub ['[', 'o', 'u', 't', ']'] rest := by
  have e : silenceFilter i ++ rest =
      '[' :: ((Nat.repr i).data ++
        (":0]silenceremove=stop_periods=-1:stop_duration=5:stop_threshold=-50dB[clean".data ++
          ((Nat.repr i).data ++ (']' :: rest)))) := by
    simp [silenceFilter, List.append_assoc]
  rw [e]
  rw [countSub_bracket_digits _ _ _ _ (by decide)]
  rw [noOccStarts_countSub _ _ (by decide)]
  rw [countSub_digits _ _ _ _ (by decide)]
  rw [countSub_cons_ne _ _ _ _ (by decide)]

theorem silenceFilter_count_sil (i : Nat) (rest : List Char) :
    countSub ['s', 'i', 'l', 'e', 'n', 'c', 'e', 'r', 'e', 'm', 'o', 'v', 'e']
        (silenceFilter i ++ rest) =
      1 + countSub ['s', 'i', 'l', 'e', 'n', 'c', 'e', 'r', 'e', 'm', 'o', 'v', 'e'] rest := by
  have e : silenceFilter i ++ rest =
      '[' :: ((Nat.repr i).data ++ ([':', '0', ']'] ++
        (['s', 'i', 'l', 'e', 'n', 'c', 'e', 'r', 'e', 'm', 'o', 'v', 'e'] ++
          ("=stop_periods=-1:stop_duration=5:stop_threshold=-50dB[clean".data ++
            ((Nat.repr i).data ++ (']' :: rest)))))) := by
    simp [silenceFilter, List.append_assoc]
  rw [e]
  rw [countSub_cons_ne _ _ _ _ (by decide)]
  rw [countSub_digits _ _ _ _ (by decide)]
  rw [noOccStarts_countSub _ _ (by decide)]
  rw [countSub_self_head]
  rw [noOccStarts_countSub _ _ (by decide)]
  rw [noOccStarts_countSub _ _ (by decide)]
  rw [countSub_digits _ _ _ _ (by decide)]
  rw [countSub_cons_ne _ _ _ _ (by decide)]

theorem silenceFilter_count_clean (i : Nat) (rest : List Char) :
    countSub ['[', 'c', 'l', 'e', 'a', 'n'] (silenceFilter i ++ rest) =
      1 + countSub ['[', 'c', 'l', 'e', 'a', 'n'] rest := by
  have e : silenceFilter i ++ rest =
      '[' :: ((Nat.repr i).data ++
        (":0]silenceremove=stop_periods=-1:stop_duration=5:stop_threshold=-50dB".data ++
          (['[', 'c', 'l', 'e', 'a', 'n'] ++ ((Nat.repr i).data ++ (']' :: rest))))) := by
    simp [silenceFilter, List.append_assoc]
  rw [e]
  rw [countSub_bracket_digits _ _ _ _ (by decide)]
  rw [noOccStarts_countSub _ _ (by decide)]
  rw [countSub_self_head]
  rw [noOccStarts_countSub _ _ (by decide)]
  rw [countSub_digits _ _ _ _ (by decide)]
  rw [countSub_cons_ne _ _ _ _ (by decide)]

theorem cleanLabel_count_clean (i : Nat) (rest : List Char) :
    countSub ['[', 'c', 'l', 'e', 'a', 'n'] (cleanLabel i ++ rest) =
      1 + countSub ['[', 'c', 'l', 'e', 'a', 'n'] rest := by
  have e : cleanLabel i ++ rest =
      ['[', 'c', 'l', 'e', 'a', 'n'] ++ ((Nat.repr i).data ++ (']' :: rest)) := by
    simp [cleanLabel, List.append_assoc]
  rw [e]
  rw [countSub_self_head]
  rw [noOccStarts_countSub _ _ (by decide)]
  rw [countSub_digits _ _ _ _ (by decide)]
  rw [countSub_cons_ne _ _ _ _ (by decide)]

theorem cleanLabel_count_zero (p : Char) (pr : List Char) (i : Nat)
    (rest : List Char) (hp : p.isDigit = false) (hrb : p ≠ ']')
    (hno : noOccStarts (p :: pr) ['[', 'c', 'l', 'e', 'a', 'n'] = true) :
    countSub (p :: pr) (cleanLabel i ++ rest) = countSub (p :: pr) rest := by
  have e : cleanLabel i ++ rest =
      ['[', 'c', 'l', 'e', 'a', 'n'] ++ ((Nat.repr i).data ++ (']' :: rest)) := by
    simp [cleanLabel, List.append_assoc]
  rw [e]
  rw [noOccStarts_countSub _ _ hno]
  rw [countSub_digits _ _ _ _ hp]
  rw [countSub_cons_ne _ _ _ _ hrb]

theorem concatDirective_count_ref (n : Nat) :
    countSub [':', '0', ']'] (concatDirective n) = 0 := by
  have e : concatDirective n =
      "concat=n=".data ++ ((Nat.repr n).data ++
        [':', 'v', '=', '0', ':', 'a', '=', '1', '[', 'o', 'u', 't', ']']) := by
    simp [concatDirective, List.append_assoc]
  rw [e]
  rw [noOccStarts_countSub _ _ (by decide)]
  rw [countSub_digits _ _ _ _ (by decide)]
  decide

theorem concatDirective_count_concat (n : Nat) :
    countSub ['c', 'o', 'n', 'c', 'a', 't', '='] (concatDirective n) = 1 := by
  have e : concatDirective n =
      ['c', 'o', 'n', 'c', 'a', 't', '='] ++ (['n', '='] ++ ((Nat.repr n).data ++
        [':', 'v', '=', '0', ':', 'a', '=', '1', '[', 'o', 'u', 't', ']'])) := by
    simp [concatDirective, List.append_assoc]
  rw [e]
  rw [countSub_self_head]
  rw [noOccStarts_countSub _ _ (by decide)]
  rw [noOccStarts_countSub _ _ (by decide)]
  rw [countSub_digits _ _ _ _ (by decide)]
  decide

theorem concatDirective_count_out (n : Nat) :
    countSub ['[', 'o', 'u', 't', ']'] (concatDirective n) = 1 := by
  have e : concatDirective n =
      "concat=n=".data ++ ((Nat.repr n).data ++
        [':', 'v', '=', '0', ':', 'a', '=', '1', '[', 'o', 'u', 't', ']']) := by
    simp [concatDirective, List.append_assoc]
  rw [e]
  rw [noOccStarts_countSub _ _ (by decide)]
  rw [countSub_digits _ _ _ _ (by decide)]
  decide

theorem concatDirective_count_sil (n : Nat) :
    countSub ['s', 'i', 'l', 'e', 'n', 'c', 'e', 'r', 'e', 'm', 'o', 'v', 'e']
      (concatDirective n) = 0 := by
  have e : concatDirective n =
      "concat=n=".data ++ ((Nat.repr n).data ++
        [':', 'v', '=', '0', ':', 'a', '=', '1', '[', 'o', 'u', 't', ']']) := by
    simp [concatDirective, List.append_assoc]
  rw [e]
  rw [noOccStarts_countSub _ _ (by decide)]
  rw [countSub_digits _ _ _ _ (by decide)]
  decide

theorem concatDirective_count_clean (n : Nat) :
    countSub ['[', 'c', 'l', 'e', 'a', 'n'] (concatDirective n) = 0 := by
  have e : concatDirective n =
      "concat=n=".data ++ ((Nat.repr n).data ++
        [':', 'v', '=', '0', ':', 'a', '=', '1', '[', 'o', 'u', 't', ']']) := by
    simp [concatDirective, List.append_assoc]
  rw [e]
  rw [noOccStarts_countSub _ _ (by decide)]
  rw [countSub_digits _ _ _ _ (by decide)]
  decide

/-! Counting over the joined segment lists. -/

theorem countSub_flatten_map (P : List Char) (seg : Nat → List Char) (k : Nat)
    (hseg : ∀ i rest, countSub P (seg i ++ rest) = k + countSub P rest)
    (l : List Nat) (rest : List Char) :
    countSub P ((l.map seg).flatten ++ rest) = k * l.length + countSub P rest := by
  induction l with
  | nil => simp
  | cons i t ih =>
    simp only [List.map_cons, List.flatten_cons, List.append_assoc]
    rw [hseg, ih, List.length_cons, Nat.mul_succ]
    omega

theorem countSub_joinSep_map (P : List Char) (seg : Nat → List Char) (k : Nat)
    (hseg : ∀ i rest, countSub P (seg i ++ rest) = k + countSub P rest)
    (hsep : ∀ t, countSub P (';' :: t) = countSub P t)
    (l : List Nat) (rest : List Char) :
    countSub P (joinSep [';'] (l.map seg) ++ rest) = k * l.length + countSub P rest := by
  induction l with
  | nil => simp [joinSep]
  | cons i t ih =>
    cases t with
    | nil =>
      simp only [List.map_cons, List.map_nil, joinSep]
      rw [hseg]
      simp
    | cons j tt =>
      have e : joinSep [';'] ((i :: j :: tt).map seg) ++ rest =
          seg i ++ (';' :: (joinSep [';'] ((j :: tt).map seg) ++ rest)) := by
        simp [joinSep, List.append_assoc]
      rw [e, hseg, hsep, ih]
      simp only [List.length_cons, Nat.mul_succ]
      omega

theorem filterComplex_ends_directive (inputFiles : List String) (rs : Bool) :
    ∃ a, filterComplex inputFiles rs = a ++ concatDirective inputFiles.length := by
  cases rs with
  | false =>
    exact ⟨((List.range inputFiles.length).map inputLabel).flatten, by
      simp [filterComplex]⟩
  | true =>
    refine ⟨joinSep (";".data) ((List.range inputFiles.length).map silenceFilter) ++
      ";".data ++ ((List.range inputFiles.length).map cleanLabel).flatten, ?_⟩
    simp [filterComplex, List.append_assoc]

theorem concatDirective_cons (n : Nat) :
    concatDirective n =
      'c' :: ("oncat=n=".data ++ ((Nat.repr n).data ++ ":v=0:a=1[out]".data)) := by
  simp [concatDirective, List.append_assoc]

theorem countSub_filterComplex_false (files : List String) (P : List Char) (kIn : Nat)
    (hIn : ∀ i rest, countSub P (inputLabel i ++ rest) = kIn + countSub P rest) :
    countSub P (filterComplex files false) =
      kIn * files.length + countSub P (concatDirective files.length) := by
  have e : filterComplex files false =
      ((List.range files.length).map inputLabel).flatten ++
        concatDirective files.length := by
    simp [filterComplex]
  rw [e, countSub_flatten_map P inputLabel kIn hIn, List.length_range]

theorem countSub_filterComplex_true (files : List String) (P : List Char)
    (kSil kClean : Nat)
    (hSil : ∀ i rest, countSub P (silenceFilter i ++ rest) = kSil + countSub P rest)
    (hClean : ∀ i rest, countSub P (cleanLabel i ++ rest) = kClean + countSub P rest)
    (hsep : ∀ t, countSub P (';' :: t) = countSub P t) :
    countSub P (filterComplex files true) =
      (kSil + kClean) * files.length + countSub P (concatDirective files.length) := by
  have e : filterComplex files true =
      joinSep [';'] ((List.range files.length).map silenceFilter) ++
        (';' :: (((List.range files.length).map cleanLabel).flatten ++
          concatDirective files.length)) := by
    simp [filterComplex, List.append_assoc]
  rw [e]
  rw [countSub_joinSep_map P silenceFilter kSil hSil hsep]
  rw [hsep]
  rw [countSub_flatten_map P cleanLabel kClean hClean]
  rw [List.length_range, Nat.add_mul]
  omega

theorem countSub_directive_in_filterComplex (files : List String) (rs : Bool)
    (hcon : countSub ['c', 'o', 'n', 'c', 'a', 't', '='] (filterComplex files rs) = 1) :
    countSub (concatDirective files.length) (filterComplex files rs) = 1 := by
  have hsplit : concatDirective files.length =
      ['c', 'o', 'n', 'c', 'a', 't', '='] ++ (['n', '='] ++
        ((Nat.repr files.length).data ++ (":v=0:a=1[out]").data)) := by
    simp [concatDirective, List.append_assoc]
  have hle : countSub (concatDirective files.length) (filterComplex files rs) ≤ 1 := by
    rw [hsplit]
    calc countSub (['c', 'o', 'n', 'c', 'a', 't', '='] ++ (['n', '='] ++
            ((Nat.repr files.length).data ++ (":v=0:a=1[out]").data)))
          (filterComplex files rs)
        ≤ countSub ['c', 'o', 'n', 'c', 'a', 't', '='] (filterComplex files rs) :=
          countSub_le_of_append _ _ _
      _ = 1 := hcon
  have hge : 1 ≤ countSub (concatDirective files.length) (filterComplex files rs) := by
    obtain ⟨a, ha⟩ := filterComplex_ends_directive files rs
    rw [ha, concatDirective_cons]
    exact one_le_countSub_append_self _ _ _
  omega

theorem finalJob_cons (j : MergeJob) (u : MergeJobUpdate) (us : List MergeJobUpdate) :
    finalJob j (u :: us) = finalJob (updateMergeJob j u) us := rfl

theorem finalJob_append_single (j : MergeJob) (us : List MergeJobUpdate)
    (u : MergeJobUpdate) :
    finalJob j (us ++ [u]) = updateMergeJob (finalJob j us) u := by
  simp [finalJob, List.foldl_append]

theorem finalJob_outputFile_none (j : MergeJob) (us : List MergeJobUpdate)
    (hj : j.outputFile = none) (hus : ∀ u ∈ us, u.outputFile = none) :
    (finalJob j us).outputFile = none := by
  induction us generalizing j with
  | nil => exact hj
  | cons u t ih =>
    rw [finalJob_cons]
    refine ih _ ?_ fun v hv => hus v (List.mem_cons_of_mem u hv)
    have hu := hus u (List.mem_cons_self u t)
    simp [updateMergeJob, hu, hj]

theorem jobTrace_output_iff_of_progress_then_last (es : List (Option ℚ))
    (last : MergeJobUpdate) :
    ∀ j : MergeJob, j.outputFile = none → j.status ≠ "completed" →
      (∀ k : MergeJob, k.outputFile = none → k.status ≠ "completed" →
        ((updateMergeJob k last).outputFile.isSome = true ↔
          (updateMergeJob k last).status = "completed")) →
      ∀ x ∈ jobTrace j
          ((es.map (fun e =>
            ({ progress := some ⌊forwardedProgress e⌋ } : MergeJobUpdate))) ++ [last]),
        x.outputFile.isSome = true ↔ x.status = "completed" := by
  induction es with
  | nil =>
    intro j hout hst hlast x hx
    simp only [List.map_nil, List.nil_append, jobTrace, List.mem_cons,
      List.not_mem_nil, or_false] at hx
    rcases hx with h | h
    · subst h
      simp [hout, hst]
    · subst h
      exact hlast j hout hst
  | cons e t ih =>
    intro j hout hst hlast x hx
    simp only [List.map_cons, List.cons_append, jobTrace, List.mem_cons] at hx
    rcases hx with h | h
    · subst h
      simp [hout, hst]
    · refine ih _ ?_ ?_ hlast x h
      · simp [updateMergeJob, hout]
      · simpa [updateMergeJob] using hst

theorem trace_output_iff (env : MergeEnv) (fileIds : List Nat) (rs : Bool)
    (out userId : String) :
    ∀ j ∈ jobTrace (createMergeJob ("pending") rs userId)
        (backgroundTask env fileIds rs out),
      j.outputFile.isSome = true ↔ j.status = "completed" := by
  intro j hj
  cases hm : mergeAudioFiles env.fsExists
      ((fileIds.map env.getAudioFile).map resolvedPath) ("uploads/" ++ out) rs with
  | error msg =>
    have hbt : backgroundTask env fileIds rs out =
        [{ status := some ("processing") }, { status := some ("failed") }] := by
      simp only [backgroundTask]
      rw [hm]
    rw [hbt] at hj
    simp only [jobTrace, List.mem_cons, List.not_mem_nil, or_false] at hj
    rcases hj with h | h | h <;> subst h <;>
      simp [createMergeJob, updateMergeJob]
  | ok inv =>
    cases heng : env.engine with
    | success =>
      have hbt : backgroundTask env fileIds rs out =
          { status := some ("processing") } ::
            ((env.progressEvents.map (fun e =>
              ({ progress := some ⌊forwardedProgress e⌋ } : MergeJobUpdate))) ++
             [{ status := some ("completed"), progress := some 100,
                outputFile := some out, completedAt := some env.now }]) := by
        simp only [backgroundTask]
        rw [hm, heng]
      rw [hbt] at hj
      simp only [jobTrace, List.mem_cons] at hj
      rcases hj with h | h
      · subst h
        simp [createMergeJob]
      · refine jobTrace_output_iff_of_progress_then_last _ _ _ ?_ ?_ ?_ j h
        · simp [createMergeJob, updateMergeJob]
        · simp [createMergeJob, updateMergeJob]
        · intro k hk1 hk2
          simp [updateMergeJob]
    | failure m =>
      have hbt : backgroundTask env fileIds rs out =
          { status := some ("processing") } ::
            ((env.progressEvents.map (fun e =>
              ({ progress := some ⌊forwardedProgress e⌋ } : MergeJobUpdate))) ++
             [{ status := some ("failed") }]) := by
        simp only [backgroundTask]
        rw [hm, heng]
      rw [hbt] at hj
      simp only [jobTrace, List.mem_cons] at hj
      rcases hj with h | h
      · subst h
        simp [createMergeJob]
      · refine jobTrace_output_iff_of_progress_then_last _ _ _ ?_ ?_ ?_ j h
        · simp [createMergeJob, updateMergeJob]
        · simp [createMergeJob, updateMergeJob]
        · intro k hk1 hk2
          simp [updateMergeJob, hk1, hk2]

theorem inputLabel_count_out (i : Nat) (rest : List Char) :
    countSub ['[', 'o', 'u', 't', ']'] (inputLabel i ++ rest) =
      countSub ['[', 'o', 'u', 't', ']'] rest := by
  have e : inputLabel i ++ rest =
      '[' :: ((Nat.repr i).data ++ ([':', '0', ']'] ++ rest)) := by
    simp [inputLabel, List.append_assoc]
  rw [e]
  rw [countSub_bracket_digits _ _ _ _ (by decide)]
  rw [noOccStarts_countSub _ _ (by decide)]

theorem count_ref_fc (files : List String) (rs : Bool) :
    countSub [':', '0', ']'] (filterComplex files rs) = files.length := by
  cases rs with
  | false =>
    rw [countSub_filterComplex_false files _ 1 inputLabel_count_ref]
    rw [concatDirective_count_ref]
    omega
  | true =>
    rw [countSub_filterComplex_true files _ 1 0 silenceFilter_count_ref
      (fun i rest => by
        rw [cleanLabel_count_zero _ _ i rest (by decide) (by decide) (by decide)]
        exact (Nat.zero_add _).symm)
      (fun t => countSub_cons_ne _ _ _ _ (by decide))]
    rw [concatDirective_count_ref]
    omega

theorem count_concat_fc (files : List String) (rs : Bool) :
    countSub ['c', 'o', 'n', 'c', 'a', 't', '='] (filterComplex files rs) = 1 := by
  cases rs with
  | false =>
    rw [countSub_filterComplex_false files _ 0
      (fun i rest => by
        rw [inputLabel_count_zero _ _ i rest (by decide) (by decide) (by decide)]
        exact (Nat.zero_add _).symm)]
    rw [concatDirective_count_concat]
    omega
  | true =>
    rw [countSub_filterComplex_true files _ 0 0
      (fun i rest => by
        rw [silenceFilter_count_concat i rest]
        exact (Nat.zero_add _).symm)
      (fun i rest => by
        rw [cleanLabel_count_zero _ _ i rest (by decide) (by decide) (by decide)]
        exact (Nat.zero_add _).symm)
      (fun t => countSub_cons_ne _ _ _ _ (by decide))]
    rw [concatDirective_count_concat]
    omega

theorem count_out_fc (files : List String) (rs : Bool) :
    countSub ['[', 'o', 'u', 't', ']'] (filterComplex files rs) = 1 := by
  cases rs with
  | false =>
    rw [countSub_filterComplex_false files _ 0
      (fun i rest => by
        rw [inputLabel_count_out i rest]
        exact (Nat.zero_add _).symm)]
    rw [concatDirective_count_out]
    omega
  | true =>
    rw [countSub_filterComplex_true files _ 0 0
      (fun i rest => by
        rw [silenceFilter_count_out i rest]
        exact (Nat.zero_add _).symm)
      (fun i rest => by
        rw [cleanLabel_count_zero _ _ i rest (by decide) (by decide) (by decide)]
        exact (Nat.zero_add _).symm)
      (fun t => countSub_cons_ne _ _ _ _ (by decide))]
    rw [concatDirective_count_out]
    omega

theorem count_sil_fc (files : List String) :
    countSub ['s', 'i', 'l', 'e', 'n', 'c', 'e', 'r', 'e', 'm', 'o', 'v', 'e']
      (filterComplex files true) = files.length := by
  rw [countSub_filterComplex_true files _ 1 0 silenceFilter_count_sil
    (fun i rest => by
      rw [cleanLabel_count_zero _ _ i rest (by decide) (by decide) (by decide)]
      exact (Nat.zero_add _).symm)
    (fun t => countSub_cons_ne _ _ _ _ (by decide))]
  rw [concatDirective_count_sil]
  omega

theorem count_clean_fc (files : List String) :
    countSub ['[', 'c', 'l', 'e', 'a', 'n'] (filterComplex files true) =
      2 * files.length := by
  rw [countSub_filterComplex_true files _ 1 1 silenceFilter_count_clean
    cleanLabel_count_clean
    (fun t => countSub_cons_ne _ _ _ _ (by decide))]
  rw [concatDirective_count_clean]
  omega

theorem count_dir_fc (files : List String) (rs : Bool) :
    countSub (concatDirective files.length) (filterComplex files rs) = 1 :=
  countSub_directive_in_filterComplex files rs (count_concat_fc files rs)

theorem mergeAudioFiles_ok_of_all (fsExists : String → Bool)
    (inputFiles : List String) (outputPath : String) (removeSilence : Bool)
    (hall : ∀ f ∈ inputFiles, fsExists f = true) :
    mergeAudioFiles fsExists inputFiles outputPath removeSilence =
      Except.ok
        { inputs := inputFiles
          filter := filterComplex inputFiles removeSilence
          outputOptions := ["-map", "[out]"]
          audioCodec := "libmp3lame"
          audioBitrate := 192
          output := outputPath } := by
  cases hfind : inputFiles.find? (fun f => ! fsExists f) with
  | none => simp [mergeAudioFiles, hfind]
  | some g =>
    have h1 := List.find?_some hfind
    have h2 := List.mem_of_find?_eq_some hfind
    rw [hall g h2] at h1
    simp at h1

/-- C7: `mergeAudioFiles` validates every input path before the engine is
invoked: when some listed path does not exist, the call rejects with the
descriptive error `Input file does not exist: <file>` naming a missing
input, the engine is never spawned, and the engine is invoked exactly when
every input path exists — no input is skipped. -/
theorem mergeAudioFiles_input_validation (fsExists : String → Bool)
    (inputFiles : List String) (outputPath : String) (removeSilence : Bool) :
    ((∃ f ∈ inputFiles, fsExists f = false) →
      ∃ f ∈ inputFiles, fsExists f = false ∧
        mergeAudioFiles fsExists inputFiles outputPath removeSilence =
          Except.error ("Input file does not exist: " ++ f)) ∧
    ((∃ inv, mergeAudioFiles fsExists inputFiles outputPath removeSilence =
        Except.ok inv) ↔ ∀ f ∈ inputFiles, fsExists f = true) := by
  constructor
  · rintro ⟨f, hf, hm⟩
    cases hfind : inputFiles.find? (fun f => ! fsExists f) with
    | none =>
      have hn := List.find?_eq_none.mp hfind f hf
      simp [hm] at hn
    | some g =>
      refine ⟨g, List.mem_of_find?_eq_some hfind, ?_, ?_⟩
      · have h1 := List.find?_some hfind
        simpa using h1
      · simp [mergeAudioFiles, hfind]
  · constructor
    · rintro ⟨inv, hinv⟩ f hf
      cases hfind : inputFiles.find? (fun f => ! fsExists f) with
      | none =>
        have hn := List.find?_eq_none.mp hfind f hf
        simpa using hn
      | some g => simp [mergeAudioFiles, hfind] at hinv
    · intro hall
      exact ⟨_, mergeAudioFiles_ok_of_all fsExists inputFiles outputPath
        removeSilence hall⟩

/-- Witness for C7 at a concrete input: with a filesystem on which nothing
exists, merging `uploads/a.mp3` rejects naming that file; with everything
existing, the engine is invoked. -/
theorem mergeAudioFiles_input_validation_witness :
    (∃ f ∈ ["uploads/a.mp3"], (fun _ => false : String → Bool) f = false ∧
      mergeAudioFiles (fun _ => false) ["uploads/a.mp3"] ("uploads/out.mp3") false =
        Except.error ("Input file does not exist: " ++ f)) ∧
    ((∃ inv, mergeAudioFiles (fun _ => true) ["uploads/a.mp3"] ("uploads/out.mp3")
        false = Except.ok inv) ↔
      ∀ f ∈ ["uploads/a.mp3"], (fun _ => true : String → Bool) f = true) := by
  constructor
  · exact (mergeAudioFiles_input_validation (fun _ => false) ["uploads/a.mp3"]
      ("uploads/out.mp3") false).1 ⟨"uploads/a.mp3", by simp, rfl⟩
  · exact (mergeAudioFiles_input_validation (fun _ => true) ["uploads/a.mp3"]
      ("uploads/out.mp3") false).2

/-- C8: for every ordered input list of N ≥ 2 paths and both values of
`removeSilence`, the filter graph references exactly N input streams
(`:0]` occurs N times), contains exactly one concat directive, that
directive is the full `concat=n=N:v=0:a=1[out]` (with n = N, v = 0, a = 1)
occurring exactly once, and exactly one output label `[out]`; with
`removeSilence` there are exactly N per-input `silenceremove` filters and
the N intermediate clean labels occur twice each (introduced, then spanned
by the concat); and the engine is invoked with the single output mapping
`-map [out]`. -/
theorem filterComplex_structure (inputFiles : List String) (removeSilence : Bool)
    (hN : 2 ≤ inputFiles.length) :
    countSub ((":0]").data) (filterComplex inputFiles removeSilence) =
      inputFiles.length ∧
    countSub (("concat=").data) (filterComplex inputFiles removeSilence) = 1 ∧
    countSub (concatDirective inputFiles.length)
      (filterComplex inputFiles removeSilence) = 1 ∧
    countSub (("[out]").data) (filterComplex inputFiles removeSilence) = 1 ∧
    (removeSilence = true →
      countSub (("silenceremove").data) (filterComplex inputFiles removeSilence) =
        inputFiles.length ∧
      countSub (("[clean").data) (filterComplex inputFiles removeSilence) =
        2 * inputFiles.length) ∧
    (∀ fsExists outputPath, (∀ f ∈ inputFiles, fsExists f = true) →
      mergeAudioFiles fsExists inputFiles outputPath removeSilence =
        Except.ok
          { inputs := inputFiles
            filter := filterComplex inputFiles removeSilence
            outputOptions := ["-map", "[out]"]
            audioCodec := "libmp3lame"
            audioBitrate := 192
            output := outputPath }) := by
  refine ⟨?_, ?_, count_dir_fc inputFiles removeSilence, ?_, ?_, ?_⟩
  · rw [(by decide : (":0]").data = [':', '0', ']'])]
    exact count_ref_fc inputFiles removeSilence
  · rw [(by decide : ("concat=").data = ['c', 'o', 'n', 'c', 'a', 't', '='])]
    exact count_concat_fc inputFiles removeSilence
  · rw [(by decide : ("[out]").data = ['[', 'o', 'u', 't', ']'])]
    exact count_out_fc inputFiles removeSilence
  · intro hrs
    subst hrs
    constructor
    · rw [(by decide : ("silenceremove").data =
        ['s', 'i', 'l', 'e', 'n', 'c', 'e', 'r', 'e', 'm', 'o', 'v', 'e'])]
      exact count_sil_fc inputFiles
    · rw [(by decide : ("[clean").data = ['[', 'c', 'l', 'e', 'a', 'n'])]
      exact count_clean_fc inputFiles
  · intro fsExists outputPath hall
    exact mergeAudioFiles_ok_of_all fsExists inputFiles outputPath
      removeSilence hall

/-- Witness for C8 at the concrete two-input list with silence removal:
the counts evaluate as stated and the engine invocation carries the
`-map [out]` output mapping. -/
theorem filterComplex_structure_witness :
    2 ≤ (["a.mp3", "b.mp3"] : List String).length ∧
    countSub ((":0]").data) (filterComplex ["a.mp3", "b.mp3"] true) = 2 ∧
    countSub (("concat=").data) (filterComplex ["a.mp3", "b.mp3"] true) = 1 ∧
    countSub (concatDirective 2) (filterComplex ["a.mp3", "b.mp3"] true) = 1 ∧
    countSub (("[out]").data) (filterComplex ["a.mp3", "b.mp3"] true) = 1 ∧
    countSub (("silenceremove").data) (filterComplex ["a.mp3", "b.mp3"] true) = 2 ∧
    countSub (("[clean").data) (filterComplex ["a.mp3", "b.mp3"] true) = 4 ∧
    mergeAudioFiles (fun _ => true) ["a.mp3", "b.mp3"] ("out.mp3") true =
      Except.ok
        { inputs := ["a.mp3", "b.mp3"]
          filter := filterComplex ["a.mp3", "b.mp3"] true
          outputOptions := ["-map", "[out]"]
          audioCodec := "libmp3lame"
          audioBitrate := 192
          output := "out.mp3" } := by
  have h := filterComplex_structure ["a.mp3", "b.mp3"] true (by decide)
  exact ⟨by decide, h.1, h.2.1, h.2.2.1, h.2.2.2.1, (h.2.2.2.2.1 rfl).1,
    (h.2.2.2.2.1 rfl).2, h.2.2.2.2.2 (fun _ => true) ("out.mp3")
      (fun f hf => rfl)⟩

/-- C9 counterexample: `deleteFile` reports nothing: its return value after
deleting a file that was present is identical to its return value after
deleting an absent file, so no boolean is returned and the second call
cannot report the file as already absent. -/
theorem deleteFile_returns_no_report :
    (deleteFile (fun p => p == "uploads/a.mp3") ("uploads/a.mp3")).2 =
      (deleteFile (fun _ => false) ("uploads/a.mp3")).2 := rfl

/-- C9 (amended): `deleteFile` returns nothing, never raises, and deleting
the same file twice is safe: the first call removes the file if present,
after it the path no longer exists, and the second call leaves the
filesystem unchanged — a silent no-op rather than a reported one. -/
theorem deleteFile_idempotent (fsExists : String → Bool) (filePath : String) :
    (deleteFile fsExists filePath).1 filePath = false ∧
    deleteFile ((deleteFile fsExists filePath).1) filePath =
      ((deleteFile fsExists filePath).1, ()) := by
  have h1 : (deleteFile fsExists filePath).1 filePath = false := by
    by_cases h : fsExists filePath = true
    · simp [deleteFile, h]
    · simp only [Bool.not_eq_true] at h
      simp [deleteFile, h]
  refine ⟨h1, ?_⟩
  obtain ⟨g, hg⟩ : ∃ g, (deleteFile fsExists filePath).1 = g := ⟨_, rfl⟩
  rw [hg] at h1 ⊢
  simp [deleteFile, h1]

/-- C10: a submission whose id list has exactly one element passes the only
input-count validation (which rejects just absent, non-array, or empty
lists), so it is accepted with a Pending job as response, and the
single-input filter graph carries the degenerate one-stream directive
`concat=n=1:v=0:a=1[out]` exactly once, for either value of
`removeSilence`. -/
theorem single_input_accepted (env : MergeEnv) (userId : String) (id : Nat)
    (removeSilence : Option Bool) (out f : String) (rs : Bool) :
    (mixmergeRoute env userId (some [id]) removeSilence out).1 =
      Except.ok (createMergeJob ("pending") (removeSilence.getD false) userId) ∧
    (createMergeJob ("pending") (removeSilence.getD false) userId).status =
      "pending" ∧
    countSub (concatDirective 1) (filterComplex [f] rs) = 1 := by
  refine ⟨by simp [mixmergeRoute], rfl, ?_⟩
  exact count_dir_fc [f] rs

theorem callbackWrites_cons_status (u : MergeJobUpdate) (us : List MergeJobUpdate)
    (h : u.status.isSome = true) : callbackWrites (u :: us) = callbackWrites us := by
  obtain ⟨s, hs⟩ := Option.isSome_iff_exists.mp h
  simp [callbackWrites, List.filterMap_cons, hs]

theorem callbackWrites_cons_progress (p : Int) (us : List MergeJobUpdate) :
    callbackWrites (({ progress := some p } : MergeJobUpdate) :: us) =
      p :: callbackWrites us := by
  simp [callbackWrites, List.filterMap_cons]

theorem callbackWrites_map_last (es : List (Option ℚ)) (last : MergeJobUpdate)
    (h : last.status.isSome = true) :
    callbackWrites ((es.map (fun e =>
        ({ progress := some ⌊forwardedProgress e⌋ } : MergeJobUpdate))) ++ [last]) =
      es.map (fun e => ⌊forwardedProgress e⌋) := by
  induction es with
  | nil =>
    simp only [List.map_nil, List.nil_append]
    rw [callbackWrites_cons_status _ _ h]
    rfl
  | cons e t ih =>
    simp only [List.map_cons, List.cons_append]
    rw [callbackWrites_cons_progress, ih]

theorem callbackWrites_backgroundTask (env : MergeEnv) (fileIds : List Nat)
    (rs : Bool) (out : String) :
    callbackWrites (backgroundTask env fileIds rs out) = [] ∨
    callbackWrites (backgroundTask env fileIds rs out) =
      env.progressEvents.map (fun e => ⌊forwardedProgress e⌋) := by
  cases hm : mergeAudioFiles env.fsExists
      ((fileIds.map env.getAudioFile).map resolvedPath) ("uploads/" ++ out) rs with
  | error msg =>
    left
    have hbt : backgroundTask env fileIds rs out =
        [{ status := some ("processing") }, { status := some ("failed") }] := by
      simp only [backgroundTask]
      rw [hm]
    rw [hbt]
    rfl
  | ok inv =>
    right
    cases heng : env.engine with
    | success =>
      have hbt : backgroundTask env fileIds rs out =
          { status := some ("processing") } ::
            ((env.progressEvents.map (fun e =>
              ({ progress := some ⌊forwardedProgress e⌋ } : MergeJobUpdate))) ++
             [{ status := some ("completed"), progress := some 100,
                outputFile := some out, completedAt := some env.now }]) := by
        simp only [backgroundTask]
        rw [hm, heng]
      rw [hbt, callbackWrites_cons_status _ _ (by rfl), callbackWrites_map_last _ _ (by rfl)]
    | failure m =>
      have hbt : backgroundTask env fileIds rs out =
          { status := some ("processing") } ::
            ((env.progressEvents.map (fun e =>
              ({ progress := some ⌊forwardedProgress e⌋ } : MergeJobUpdate))) ++
             [{ status := some ("failed") }]) := by
        simp only [backgroundTask]
        rw [hm, heng]
      rw [hbt, callbackWrites_cons_status _ _ (by rfl), callbackWrites_map_last _ _ (by rfl)]

/-- C1 counterexample: a job referencing asset id 5, which has no stored
asset, produces the status trace pending, processing, failed — a status
read between the two writes observes Processing, contradicting "without
ever having status Processing". -/
theorem missing_asset_trace_observes_processing :
    envMissingAsset.getAudioFile 5 = none ∧
    (jobTrace (createMergeJob ("pending") false ("user1"))
        (backgroundTask envMissingAsset [5] false ("merged.mp3"))).map
      MergeJob.status = ["pending", "processing", "failed"] ∧
    "processing" ∈ (jobTrace (createMergeJob ("pending") false ("user1"))
        (backgroundTask envMissingAsset [5] false ("merged.mp3"))).map
      MergeJob.status := by
  refine ⟨rfl, ?_, ?_⟩ <;> decide

/-- C1 (amended): a merge referencing an id with no stored asset resolves
that entry to the path `uploads/undefined`; provided that path does not
exist, the executor rejects before the engine is spawned and the job goes
Pending → Processing → Failed — Processing is set before asset resolution
and is observable before the terminal Failed state. -/
theorem missing_asset_pending_processing_failed (env : MergeEnv)
    (fileIds : List Nat) (rs : Bool) (out userId : String)
    (hmiss : ∃ id ∈ fileIds, env.getAudioFile id = none)
    (hundef : env.fsExists ("uploads/undefined") = false) :
    (jobTrace (createMergeJob ("pending") rs userId)
        (backgroundTask env fileIds rs out)).map MergeJob.status =
      ["pending", "processing", "failed"] := by
  obtain ⟨id, hid, hnone⟩ := hmiss
  have hmem : ("uploads/undefined" : String) ∈
      (fileIds.map env.getAudioFile).map resolvedPath :=
    List.mem_map.mpr ⟨none, List.mem_map.mpr ⟨id, hid, hnone⟩, by decide⟩
  cases hfd : ((fileIds.map env.getAudioFile).map resolvedPath).find?
      (fun f => ! env.fsExists f) with
  | none =>
    exfalso
    have hn := List.find?_eq_none.mp hfd _ hmem
    simp [hundef] at hn
  | some g =>
    have herr : mergeAudioFiles env.fsExists
        ((fileIds.map env.getAudioFile).map resolvedPath) ("uploads/" ++ out) rs =
        Except.error ("Input file does not exist: " ++ g) := by
      simp only [mergeAudioFiles]
      rw [hfd]
    have hbt : backgroundTask env fileIds rs out =
        [{ status := some ("processing") }, { status := some ("failed") }] := by
      simp only [backgroundTask]
      rw [herr]
    rw [hbt]
    simp [jobTrace, createMergeJob, updateMergeJob]

/-- Witness for the amended C1 at the concrete missing-asset environment. -/
theorem missing_asset_pending_processing_failed_witness :
    (jobTrace (createMergeJob ("pending") false ("user1"))
        (backgroundTask envMissingAsset [5] false ("merged.mp3"))).map
      MergeJob.status = ["pending", "processing", "failed"] :=
  missing_asset_pending_processing_failed envMissingAsset [5] false
    ("merged.mp3") ("user1") ⟨5, by decide, rfl⟩ rfl

/-- C2 counterexample: the value handed to `onProgress` is not clamped to
the interval [0,100]: when the engine emits 150, the callback receives
150. -/
theorem progress_forward_not_clamped :
    forwardedProgress (some 150) = 150 ∧
    ¬ (∀ percent : Option ℚ, 0 ≤ forwardedProgress percent ∧
        forwardedProgress percent ≤ 100) := by
  constructor
  · norm_num [forwardedProgress]
  · intro h
    have h2 := (h (some 150)).2
    norm_num [forwardedProgress] at h2

/-- C2 (amended): `onProgress` receives the engine's raw percent, with an
absent or zero value replaced by 0 and no clamping applied; consequently
the forwarded value lies in [0,100] exactly when the engine's emitted
values do. -/
theorem progress_forward_bounds (percent : Option ℚ)
    (h : ∀ x, percent = some x → 0 ≤ x ∧ x ≤ 100) :
    0 ≤ forwardedProgress percent ∧ forwardedProgress percent ≤ 100 := by
  cases percent with
  | none => norm_num [forwardedProgress]
  | some p =>
    have hp := h p rfl
    by_cases h0 : p = 0
    · subst h0
      norm_num [forwardedProgress]
    · simpa [forwardedProgress, h0] using hp

/-- Witness for the amended C2 at the in-range percent 50. -/
theorem progress_forward_bounds_witness :
    0 ≤ forwardedProgress (some 50) ∧ forwardedProgress (some 50) ≤ 100 :=
  progress_forward_bounds (some 50) (by
    intro x hx
    cases hx
    norm_num)

/-- C3 counterexample: the progress callback persists exactly
`Math.floor(progress)` with no monotonicity guard: a successful run whose
engine delivers 50 then 30 persists 50 then 30, a decreasing sequence. -/
theorem persisted_progress_can_decrease :
    callbackWrites (backgroundTask envProgressDecrease [1] false ("m.mp3")) =
      [50, 30] ∧
    ¬ List.Chain' (· ≤ ·)
      (callbackWrites (backgroundTask envProgressDecrease [1] false ("m.mp3"))) := by
  have hcw : callbackWrites (backgroundTask envProgressDecrease [1] false ("m.mp3")) =
      [50, 30] := by decide
  refine ⟨hcw, fun h => ?_⟩
  rw [hcw] at h
  have h2 := (List.chain'_cons.mp h).1
  omega

/-- C3 (amended): each callback persists the floor of the forwarded
percent and nothing else; the persisted callback sequence is exactly the
floors of the delivered values, hence non-decreasing whenever the
delivered sequence is non-decreasing. -/
theorem persisted_progress_monotone (env : MergeEnv) (fileIds : List Nat)
    (rs : Bool) (out : String)
    (h : List.Chain' (· ≤ ·) (env.progressEvents.map forwardedProgress)) :
    (callbackWrites (backgroundTask env fileIds rs out) = [] ∨
      callbackWrites (backgroundTask env fileIds rs out) =
        env.progressEvents.map (fun e => ⌊forwardedProgress e⌋)) ∧
    List.Chain' (· ≤ ·) (callbackWrites (backgroundTask env fileIds rs out)) := by
  refine ⟨callbackWrites_backgroundTask env fileIds rs out, ?_⟩
  rcases callbackWrites_backgroundTask env fileIds rs out with hcw | hcw <;> rw [hcw]
  · simp
  · have hmm : env.progressEvents.map (fun e => ⌊forwardedProgress e⌋) =
        (env.progressEvents.map forwardedProgress).map (fun q => ⌊q⌋) := by
      rw [List.map_map]
      rfl
    rw [hmm, List.chain'_map]
    exact h.imp fun a b hab => Int.floor_le_floor hab

/-- Witness for the amended C3: a run delivering 10 then 20 persists the
non-decreasing sequence [10, 20]. -/
theorem persisted_progress_monotone_witness :
    List.Chain' (· ≤ ·)
      (callbackWrites (backgroundTask envSuccess [1] false ("m.mp3"))) :=
  (persisted_progress_monotone envSuccess [1] false ("m.mp3")
    (by simp [envSuccess])).2

/-- C4: a submission with a non-empty id list is answered with the created
Pending job, and the response is computed without consulting the execution
environment: it is identical for any two environments and output names, so
no failure of the background execution (missing asset, engine error,
filesystem error) can alter it — such failures are only visible on the
stored job. -/
theorem submit_returns_pending (env env2 : MergeEnv) (userId out out2 : String)
    (ids : List Nat) (removeSilence : Option Bool) (h : ids ≠ []) :
    (mixmergeRoute env userId (some ids) removeSilence out).1 =
      Except.ok (createMergeJob ("pending") (removeSilence.getD false) userId) ∧
    (createMergeJob ("pending") (removeSilence.getD false) userId).status =
      "pending" ∧
    (mixmergeRoute env userId (some ids) removeSilence out).1 =
      (mixmergeRoute env2 userId (some ids) removeSilence out2).1 := by
  have he : ids.isEmpty = false := by
    cases ids with
    | nil => exact absurd rfl h
    | cons a t => rfl
  refine ⟨?_, rfl, ?_⟩ <;> simp [mixmergeRoute, he]

/-- Witness for C4: the same submission against two different environments
gets the same Pending response. -/
theorem submit_returns_pending_witness :
    ([3] : List Nat) ≠ [] ∧
    (mixmergeRoute envMissingAsset ("user1") (some [3]) (some true) ("m.mp3")).1 =
      Except.ok (createMergeJob ("pending") true ("user1")) ∧
    (mixmergeRoute envMissingAsset ("user1") (some [3]) (some true) ("m.mp3")).1 =
      (mixmergeRoute envProgressDecrease ("user1") (some [3]) (some true)
        ("m2.mp3")).1 := by
  have h := submit_returns_pending envMissingAsset envProgressDecrease ("user1")
    ("m.mp3") ("m2.mp3") [3] (some true) (by decide)
  exact ⟨by decide, h.1, h.2.2⟩

/-- C5: when the background merge succeeds — every input resolves to an
existing path and the engine reports success — the final job record has
status Completed, progress exactly 100, the generated output filename and a
completion time; and in every run, every job state in the trace satisfies:
the output file reference is present iff the status is Completed. -/
theorem merge_success_completion (env : MergeEnv) (fileIds : List Nat)
    (rs : Bool) (out userId : String)
    (hok : ∃ inv, mergeAudioFiles env.fsExists
        ((fileIds.map env.getAudioFile).map resolvedPath) ("uploads/" ++ out) rs =
          Except.ok inv)
    (heng : env.engine = EngineResult.success) :
    (finalJob (createMergeJob ("pending") rs userId)
        (backgroundTask env fileIds rs out)).status = "completed" ∧
    (finalJob (createMergeJob ("pending") rs userId)
        (backgroundTask env fileIds rs out)).progress = 100 ∧
    (finalJob (createMergeJob ("pending") rs userId)
        (backgroundTask env fileIds rs out)).outputFile = some out ∧
    (finalJob (createMergeJob ("pending") rs userId)
        (backgroundTask env fileIds rs out)).completedAt = some env.now ∧
    (∀ env2 fileIds2 rs2 out2 userId2,
      ∀ j ∈ jobTrace (createMergeJob ("pending") rs2 userId2)
          (backgroundTask env2 fileIds2 rs2 out2),
        j.outputFile.isSome = true ↔ j.status = "completed") := by
  obtain ⟨inv, hinv⟩ := hok
  have hbt : backgroundTask env fileIds rs out =
      { status := some ("processing") } ::
        ((env.progressEvents.map (fun e =>
          ({ progress := some ⌊forwardedProgress e⌋ } : MergeJobUpdate))) ++
         [{ status := some ("completed"), progress := some 100,
            outputFile := some out, completedAt := some env.now }]) := by
    simp only [backgroundTask]
    rw [hinv, heng]
  rw [hbt]
  refine ⟨?_, ?_, ?_, ?_,
    fun env2 ids2 rs2 out2 uid2 => trace_output_iff env2 ids2 rs2 out2 uid2⟩ <;>
    rw [finalJob_cons, finalJob_append_single] <;> simp [updateMergeJob]

/-- Witness for C5 at a concrete successful run. -/
theorem merge_success_completion_witness :
    (finalJob (createMergeJob ("pending") false ("user1"))
        (backgroundTask envSuccess [1] false ("m.mp3"))).status = "completed" ∧
    (finalJob (createMergeJob ("pending") false ("user1"))
        (backgroundTask envSuccess [1] false ("m.mp3"))).progress = 100 ∧
    (finalJob (createMergeJob ("pending") false ("user1"))
        (backgroundTask envSuccess [1] false ("m.mp3"))).outputFile =
      some ("m.mp3") ∧
    (finalJob (createMergeJob ("pending") false ("user1"))
        (backgroundTask envSuccess [1] false ("m.mp3"))).completedAt = some 99 := by
  have h := merge_success_completion envSuccess [1] false ("m.mp3") ("user1")
    ⟨_, rfl⟩ rfl
  exact ⟨h.1, h.2.1, h.2.2.1, h.2.2.2.1⟩

/-- C6: when the background execution fails — a missing input rejected by
the executor, or an engine failure — the final update carries only the
status: relative to the state just before it the progress, output
reference and completion time are unchanged, the status becomes Failed,
and the failed job carries no output file reference. -/
theorem merge_failure_frame (env : MergeEnv) (fileIds : List Nat) (rs : Bool)
    (out userId : String)
    (hfail : (∃ msg, mergeAudioFiles env.fsExists
        ((fileIds.map env.getAudioFile).map resolvedPath) ("uploads/" ++ out) rs =
          Except.error msg) ∨ ∃ m, env.engine = EngineResult.failure m) :
    (finalJob (createMergeJob ("pending") rs userId)
        (backgroundTask env fileIds rs out)).status = "failed" ∧
    (finalJob (createMergeJob ("pending") rs userId)
        (backgroundTask env fileIds rs out)).progress =
      (finalJob (createMergeJob ("pending") rs userId)
        ((backgroundTask env fileIds rs out).dropLast)).progress ∧
    (finalJob (createMergeJob ("pending") rs userId)
        (backgroundTask env fileIds rs out)).outputFile =
      (finalJob (createMergeJob ("pending") rs userId)
        ((backgroundTask env fileIds rs out).dropLast)).outputFile ∧
    (finalJob (createMergeJob ("pending") rs userId)
        (backgroundTask env fileIds rs out)).completedAt =
      (finalJob (createMergeJob ("pending") rs userId)
        ((backgroundTask env fileIds rs out).dropLast)).completedAt ∧
    (finalJob (createMergeJob ("pending") rs userId)
        (backgroundTask env fileIds rs out)).outputFile = none := by
  cases hm : mergeAudioFiles env.fsExists
      ((fileIds.map env.getAudioFile).map resolvedPath) ("uploads/" ++ out) rs with
  | error msg =>
    have hbt : backgroundTask env fileIds rs out =
        [{ status := some ("processing") }, { status := some ("failed") }] := by
      simp only [backgroundTask]
      rw [hm]
    rw [hbt]
    refine ⟨rfl, rfl, rfl, rfl, rfl⟩
  | ok inv =>
    rcases hfail with hf | ⟨m, heng⟩
    · obtain ⟨msg, hmsg⟩ := hf
      rw [hm] at hmsg
      exact absurd hmsg (by simp)
    · have hbt : backgroundTask env fileIds rs out =
          ({ status := some ("processing") } ::
            (env.progressEvents.map (fun e =>
              ({ progress := some ⌊forwardedProgress e⌋ } : MergeJobUpdate)))) ++
           [{ status := some ("failed") }] := by
        simp only [backgroundTask]
        rw [hm, heng]
        simp
      rw [hbt, List.dropLast_concat, finalJob_append_single]
      have hout : (finalJob (createMergeJob ("pending") rs userId)
          ({ status := some ("processing") } ::
            (env.progressEvents.map (fun e =>
              ({ progress := some ⌊forwardedProgress e⌋ } :
                MergeJobUpdate))))).outputFile = none := by
        apply finalJob_outputFile_none
        · rfl
        · intro u hu
          rcases List.mem_cons.mp hu with h | h
          · subst h
            rfl
          · obtain ⟨e, he, hee⟩ := List.mem_map.mp h
            rw [← hee]
      exact ⟨rfl, rfl, hout.symm ▸ rfl, rfl, hout⟩

/-- Witness for C6 at a concrete engine-failure run: the job ends Failed,
the progress persisted by the last callback (40) survives the failure
update, and no output reference is recorded. -/
theorem merge_failure_frame_witness :
    (finalJob (createMergeJob ("pending") false ("user1"))
        (backgroundTask envEngineFailure [1] false ("m.mp3"))).status = "failed" ∧
    (finalJob (createMergeJob ("pending") false ("user1"))
        (backgroundTask envEngineFailure [1] false ("m.mp3"))).progress =
      (finalJob (createMergeJob ("pending") false ("user1"))
        ((backgroundTask envEngineFailure [1] false ("m.mp3")).dropLast)).progress ∧
    (finalJob (createMergeJob ("pending") false ("user1"))
        (backgroundTask envEngineFailure [1] false ("m.mp3"))).outputFile = none := by
  have h := merge_failure_frame envEngineFailure [1] false ("m.mp3") ("user1")
    (Or.inr ⟨"boom", rfl⟩)
  exact ⟨h.1, h.2.1, h.2.2.2.2⟩

end MixMerge
